import Mathlib

/-!
# A verification development for the cooperative task scheduler (src/scheduler.c)

The C program keeps a fixed global table `task_info_t tasks[MAX_TASKS]` of
task records together with the globals `current_task`, `num_tasks` and
`num_alive`, and schedules cooperatively: `schedule_next` scans the table
starting at `current_task + 1`, wrapping to `0` once the running index
reaches `num_tasks`, until `is_ready` accepts a slot, then switches contexts.

Shallow embedding choices:
* The execution-context fields (`ucontext_t context`, `exit_context`) and the
  stack allocations are external collaborators in the C code (`swapcontext`,
  `makecontext`, `malloc`/`free`); they carry no scheduling information, so a
  task record here keeps only the scheduling metadata `is_alive`,
  `wake_time`, `waiting_for`.  A context switch performed by `schedule_next`
  is recorded in its result as the pair (index whose context is saved, index
  whose context is resumed).
* The C table is a statically zero-initialised array; we model it as a total
  function `Nat → TaskRec` whose entries are the all-zero record everywhere
  the program has not written.
* `time_ms()` (the monotone millisecond clock) is passed explicitly as a
  natural number `now`; `getch()` results are passed as a list of `Int`
  poll results, with the curses failure sentinel `ERR = -1`.
* `int` flags are modelled as `Bool` (`is_alive` is only ever written 0/1),
  `size_t wake_time` as `Nat`, and the handle field `int waiting_for` as
  `Int` so that the `-1` "waiting for no one" sentinel is kept verbatim.
  The C expression `tasks[task.waiting_for]` is rendered with `Int.toNat`,
  which agrees with the C indexing on every value the program stores there
  (either `-1`, which is short-circuited away, or a nonnegative handle).
-/

/-- `#define MAX_TASKS 128`, the upper limit on the number of tasks. -/
def MAX_TASKS : Nat := 128

/-- The scheduling metadata of `task_info_t` (contexts and stacks are the
external context primitive and are not part of the scheduling state). -/
structure TaskRec where
  is_alive : Bool
  wake_time : Nat
  waiting_for : Int
deriving Repr, DecidableEq

/-- The all-zero record produced by C static initialisation of the global
array `tasks` (note that the zero of `waiting_for` is `0`, not the `-1`
sentinel; unused slots are protected by `is_alive = false` instead). -/
def zeroRec : TaskRec := { is_alive := false, wake_time := 0, waiting_for := 0 }

/-- The global scheduler state: `current_task`, `num_tasks`, `num_alive` and
the task table. -/
structure SchedState where
  current_task : Nat
  num_tasks : Nat
  num_alive : Int
  tasks : Nat → TaskRec

/-- The globals as the C loader initialises them: `current_task = 0`,
`num_tasks = 1`, `num_alive` zero-initialised, every table slot zeroed. -/
def initialGlobals : SchedState :=
  { current_task := 0, num_tasks := 1, num_alive := 0, tasks := fun _ => zeroRec }

/-- `is_ready(task)`: alive, and not waiting on a task that is still alive,
and past its wake time.  The C function reads the global table (for the
waited-on task) and `time_ms()`; both are explicit arguments here. -/
def is_ready (tasks : Nat → TaskRec) (now : Nat) (task : TaskRec) : Bool :=
  task.is_alive &&
    (task.waiting_for == -1 ||
     !(tasks task.waiting_for.toNat).is_alive) &&
    decide (task.wake_time ≤ now)

/-- One advance of the scan index in `schedule_next`:
`i++; if (i >= num_tasks) i = 0;`. -/
def next_probe (numTasks i : Nat) : Nat :=
  if numTasks ≤ i + 1 then 0 else i + 1

/-- The fuelled body of `schedule_next`'s `while (true)` search.  The C loop
re-reads the clock on every iteration; at a fixed clock value its probe
sequence is `current_task + 1` followed by the wrap sequence, which revisits
only indices it has already tried after `num_tasks + 1` probes, so
`num_tasks + 1` units of fuel decide the search exactly: `none` means the C
loop never terminates at this clock value. -/
def findReadyAux (s : SchedState) (now : Nat) : Nat → Nat → Option Nat
  | 0, _ => none
  | fuel + 1, i =>
    if is_ready s.tasks now (s.tasks i) then some i
    else findReadyAux s now fuel (next_probe s.num_tasks i)

/-- The index selected by `schedule_next`'s scan, starting at
`current_task + 1`. -/
def findReady (s : SchedState) (now : Nat) : Option Nat :=
  findReadyAux s now (s.num_tasks + 1) (s.current_task + 1)

/-- `schedule_next()`: find the next ready slot `i`, set
`current_task = i`, clear `tasks[i].waiting_for` to `-1`, and swap contexts.
The result carries the new state and the context-switch record
`(old_task, i)`: `swapcontext(&tasks[old_task].context,
&tasks[current_task].context)`.  `none` models the nonterminating scan. -/
def schedule_next (s : SchedState) (now : Nat) : Option (SchedState × Nat × Nat) :=
  match findReady s now with
  | none => none
  | some i =>
    some ({ s with
            current_task := i,
            tasks := fun j =>
              if j = i then { s.tasks i with waiting_for := -1 } else s.tasks j },
          s.current_task, i)

/-- `scheduler_init()`: reset the counters, mark task 0 alive and waiting
for no one (its `wake_time` is left as loaded, i.e. 0), capture its context
(external, not modelled). -/
def scheduler_init (s : SchedState) : SchedState :=
  { s with
    current_task := 0, num_tasks := 1, num_alive := 1,
    tasks := fun j =>
      if j = 0 then { s.tasks 0 with is_alive := true, waiting_for := -1 }
      else s.tasks j }

/-- The state update of `task_exit()` before its final `schedule_next()`:
decrement `num_alive`, clear the current task's `is_alive` (the two
`free`s of the context stacks are the external stack resource). -/
def task_exit_upd (s : SchedState) : SchedState :=
  { s with
    num_alive := s.num_alive - 1,
    tasks := fun j =>
      if j = s.current_task then { s.tasks s.current_task with is_alive := false }
      else s.tasks j }

/-- `task_exit()`: mark the current task dead, then `schedule_next()`. -/
def task_exit (s : SchedState) (now : Nat) : Option (SchedState × Nat × Nat) :=
  schedule_next (task_exit_upd s) now

/-- `task_create(handle, fn)`: claim index `num_tasks`, bump the counters,
write the handle, mark the slot alive and waiting for no one.  The two
`getcontext`/`makecontext` bootstraps and stack `malloc`s act only on the
external context fields.  The returned `Nat` is the handle value written
through `handle`.  Note the C code performs no capacity check against
`MAX_TASKS` and never calls `schedule_next`. -/
def task_create (s : SchedState) : SchedState × Nat :=
  let index := s.num_tasks
  ({ s with
     num_tasks := s.num_tasks + 1,
     num_alive := s.num_alive + 1,
     tasks := fun j =>
       if j = index then { s.tasks index with is_alive := true, waiting_for := -1 }
       else s.tasks j },
   index)

/-- The state update of `task_wait(handle)` before its `schedule_next()`:
`tasks[current_task].waiting_for = handle`. -/
def task_wait_upd (s : SchedState) (handle : Int) : SchedState :=
  { s with
    tasks := fun j =>
      if j = s.current_task then { s.tasks s.current_task with waiting_for := handle }
      else s.tasks j }

/-- `task_wait(handle)`: record the wait target, then `schedule_next()`. -/
def task_wait (s : SchedState) (handle : Int) (now : Nat) :
    Option (SchedState × Nat × Nat) :=
  schedule_next (task_wait_upd s handle) now

/-- The state update of `task_sleep(ms)` before its `schedule_next()`:
`tasks[current_task].wake_time = time_ms() + ms`. -/
def task_sleep_upd (s : SchedState) (now ms : Nat) : SchedState :=
  { s with
    tasks := fun j =>
      if j = s.current_task then { s.tasks s.current_task with wake_time := now + ms }
      else s.tasks j }

/-- `task_sleep(ms)`: set the wake time, then `schedule_next()`
(unconditionally, also for `ms = 0`). -/
def task_sleep (s : SchedState) (now ms : Nat) : Option (SchedState × Nat × Nat) :=
  schedule_next (task_sleep_upd s now ms) now

/-- The curses `ERR` sentinel returned by `getch()` when no input is
available. -/
def ERR : Int := -1

/-- `task_readchar()` over an explicit trace of `getch()` results: poll;
on `ERR` yield through `schedule_next` and poll again, on data return the
character together with the state (unchanged by `task_readchar` itself).
`none` models the loop never returning (input exhausted with no data, or a
nonterminating scan inside a yield). -/
def task_readchar (s : SchedState) (now : Nat) : List Int → Option (Int × SchedState)
  | [] => none
  | input :: rest =>
    if input = ERR then
      match schedule_next s now with
      | none => none
      | some (s2, _, _) => task_readchar s2 now rest
    else
      some (input, s)

/-- C2: `is_ready(task)` is true exactly when the task is alive, is not
waiting on a still-alive task, and its wake time has passed; the C function
only reads state (it is modelled as a pure function of the table, the clock
and the record). -/
theorem is_ready_iff (tasks : Nat → TaskRec) (now : Nat) (task : TaskRec) :
    is_ready tasks now task = true ↔
      task.is_alive = true ∧
      (task.waiting_for = -1 ∨ (tasks task.waiting_for.toNat).is_alive = false) ∧
      task.wake_time ≤ now := by
  simp [is_ready, Bool.and_eq_true, Bool.or_eq_true, Bool.not_eq_true', and_assoc]

/-- C6: after `scheduler_init` runs on the freshly loaded globals, task 0 is
alive, waits for no one, has wake time 0, and `current_task = 0`,
`num_tasks = 1`. -/
theorem scheduler_init_spec :
    ((scheduler_init initialGlobals).tasks 0).is_alive = true ∧
    ((scheduler_init initialGlobals).tasks 0).waiting_for = -1 ∧
    ((scheduler_init initialGlobals).tasks 0).wake_time = 0 ∧
    (scheduler_init initialGlobals).current_task = 0 ∧
    (scheduler_init initialGlobals).num_tasks = 1 := by
  refine ⟨rfl, rfl, rfl, rfl, rfl⟩

/-- The spec's description of the Scheduler Loop's selection: starting from
`(current_task_index + 1) mod num_tasks`, the first slot in increasing
circular order that satisfies the Readiness Evaluator. -/
def roundRobinFirst (s : SchedState) (now : Nat) : Option Nat :=
  ((List.range s.num_tasks).map fun k => (s.current_task + 1 + k) % s.num_tasks).find?
    fun j => is_ready s.tasks now (s.tasks j)

/-- The list of indices probed by `schedule_next`'s loop, starting at `i`
with `fuel` probes. -/
def probeList (numTasks : Nat) : Nat → Nat → List Nat
  | 0, _ => []
  | fuel + 1, i => i :: probeList numTasks fuel (next_probe numTasks i)

theorem findReadyAux_eq_find? (s : SchedState) (now : Nat) :
    ∀ fuel i, findReadyAux s now fuel i =
      (probeList s.num_tasks fuel i).find? fun j => is_ready s.tasks now (s.tasks j) := by
  intro fuel
  induction fuel with
  | zero => intro i; rfl
  | succ fuel ih =>
    intro i
    by_cases h : is_ready s.tasks now (s.tasks i) = true
    · rw [findReadyAux, if_pos h, probeList,
          @List.find?_cons_of_pos _ (fun j => is_ready s.tasks now (s.tasks j)) i _ h]
    · rw [findReadyAux, if_neg h, probeList,
          @List.find?_cons_of_neg _ (fun j => is_ready s.tasks now (s.tasks j)) i _ h, ih]

theorem next_probe_eq_mod (n i : Nat) (hi : i < n) :
    next_probe n i = (i + 1) % n := by
  unfold next_probe
  by_cases h : n ≤ i + 1
  · have hin : i + 1 = n := by omega
    simp [h, hin]
  · rw [if_neg h, Nat.mod_eq_of_lt (by omega)]

theorem probeList_eq_map_range (n : Nat) (hn : 0 < n) :
    ∀ fuel i, i < n →
      probeList n fuel i = (List.range fuel).map fun k => (i + k) % n := by
  intro fuel
  induction fuel with
  | zero => intro i _; rfl
  | succ fuel ih =>
    intro i hi
    have hfun : (fun k => ((i + 1) % n + k) % n) =
        ((fun k => (i + k) % n) ∘ Nat.succ) := by
      funext k
      show ((i + 1) % n + k) % n = (i + Nat.succ k) % n
      rw [Nat.mod_add_mod]
      congr 1
      omega
    rw [probeList, next_probe_eq_mod n i hi,
        ih ((i + 1) % n) (Nat.mod_lt _ hn),
        List.range_succ_eq_map, List.map_cons, List.map_map, hfun]
    congr 1
    rw [Nat.add_zero, Nat.mod_eq_of_lt hi]

theorem findReady_eq_roundRobinFirst (s : SchedState) (now : Nat)
    (hc : s.current_task < s.num_tasks)
    (hdead : ∀ j, s.num_tasks ≤ j → (s.tasks j).is_alive = false) :
    findReady s now = roundRobinFirst s now := by
  have hn : 0 < s.num_tasks := Nat.pos_of_ne_zero (by omega)
  rw [findReady, findReadyAux_eq_find?, roundRobinFirst]
  rcases Nat.lt_or_ge (s.current_task + 1) s.num_tasks with hlt | hge
  · -- the first probe current_task + 1 is already inside [0, num_tasks)
    rw [probeList_eq_map_range _ hn _ _ hlt, List.range_succ, List.map_append,
        List.find?_append]
    cases hfa : ((List.range s.num_tasks).map fun k =>
        (s.current_task + 1 + k) % s.num_tasks).find?
          (fun j => is_ready s.tasks now (s.tasks j)) with
    | some a => rfl
    | none =>
      rw [Option.none_or, List.map_singleton]
      have hmem : s.current_task + 1 ∈
          (List.range s.num_tasks).map fun k =>
            (s.current_task + 1 + k) % s.num_tasks := by
        refine List.mem_map.mpr ⟨0, List.mem_range.mpr hn, ?_⟩
        rw [Nat.add_zero, Nat.mod_eq_of_lt hlt]
      have hnp := List.find?_eq_none.mp hfa _ hmem
      have hlast : (s.current_task + 1 + s.num_tasks) % s.num_tasks =
          s.current_task + 1 := by
        rw [Nat.add_mod_right, Nat.mod_eq_of_lt hlt]
      rw [hlast,
          @List.find?_cons_of_neg _ (fun j => is_ready s.tasks now (s.tasks j))
            (s.current_task + 1) _ hnp]
      rfl
  · -- current_task + 1 = num_tasks: the first probe hits the dead slot
    -- num_tasks and is skipped, after which the scan runs over 0, 1, …
    have heq : s.current_task + 1 = s.num_tasks := by omega
    have hnp : ¬ (is_ready s.tasks now (s.tasks (s.current_task + 1)) = true) := by
      rw [heq]
      simp [is_ready, hdead s.num_tasks (Nat.le_refl _)]
    have hzero : next_probe s.num_tasks (s.current_task + 1) = 0 := by
      unfold next_probe
      rw [if_pos (by omega)]
    rw [probeList,
        @List.find?_cons_of_neg _ (fun j => is_ready s.tasks now (s.tasks j))
          (s.current_task + 1) _ hnp,
        hzero, probeList_eq_map_range _ hn _ _ hn]
    have hfun : (fun k => (0 + k) % s.num_tasks) =
        (fun k => (s.current_task + 1 + k) % s.num_tasks) := by
      funext k
      rw [Nat.zero_add, heq, Nat.add_mod_left]
    rw [hfun]

theorem schedule_next_dest (s : SchedState) (now : Nat) (s' : SchedState)
    (old res : Nat) (h : schedule_next s now = some (s', old, res)) :
    findReady s now = some res ∧ old = s.current_task ∧
    s' = { s with
           current_task := res,
           tasks := fun j =>
             if j = res then { s.tasks res with waiting_for := -1 }
             else s.tasks j } := by
  unfold schedule_next at h
  cases hf : findReady s now with
  | none =>
    rw [hf] at h
    exact absurd h (by simp)
  | some i =>
    rw [hf] at h
    simp only [Option.some.injEq, Prod.mk.injEq] at h
    obtain ⟨hs, hold, hres⟩ := h
    subst hres
    exact ⟨rfl, hold.symm, hs.symm⟩

theorem findReady_some_ready (s : SchedState) (now : Nat) (res : Nat)
    (h : findReady s now = some res) :
    is_ready s.tasks now (s.tasks res) = true := by
  rw [findReady, findReadyAux_eq_find?] at h
  exact @List.find?_some _ (fun j => is_ready s.tasks now (s.tasks j)) res _ h

/-- C1: on every `schedule_next` call (in a state where the scan is
well-posed: `current_task` in range and all unclaimed slots dead, which
holds in every reachable state), the selected slot is exactly the first
slot satisfying `is_ready` in increasing circular order starting from
`(current_task + 1) % num_tasks`; on finding it, the call clears that
slot's `waiting_for` to the `-1` sentinel, sets `current_task` to it, and
performs the context switch saving the previous current task's context and
resuming the selected slot's context (the `(old, res)` switch record);
nothing else in the state changes. -/
theorem schedule_next_round_robin (s : SchedState) (now : Nat)
    (hc : s.current_task < s.num_tasks)
    (hdead : ∀ j, s.num_tasks ≤ j → (s.tasks j).is_alive = false) :
    (schedule_next s now).map (fun r => r.2.2) = roundRobinFirst s now ∧
    ∀ s' old res, schedule_next s now = some (s', old, res) →
      roundRobinFirst s now = some res ∧
      is_ready s.tasks now (s.tasks res) = true ∧
      (s'.tasks res).waiting_for = -1 ∧
      s'.current_task = res ∧
      old = s.current_task ∧
      (∀ j, j ≠ res → s'.tasks j = s.tasks j) ∧
      (s'.tasks res).is_alive = (s.tasks res).is_alive ∧
      (s'.tasks res).wake_time = (s.tasks res).wake_time ∧
      s'.num_tasks = s.num_tasks ∧ s'.num_alive = s.num_alive := by
  have hfr := findReady_eq_roundRobinFirst s now hc hdead
  constructor
  · rw [schedule_next, ← hfr]
    cases findReady s now with
    | none => rfl
    | some i => rfl
  · intro s' old res h
    obtain ⟨hf, hold, hs⟩ := schedule_next_dest s now s' old res h
    have hready := findReady_some_ready s now res hf
    subst hs
    refine ⟨hfr.symm.trans hf, hready, ?_, rfl, hold, ?_, ?_, ?_, rfl, rfl⟩
    · simp
    · intro j hj
      simp [hj]
    · simp
    · simp

/-- A concrete scheduler state used by witnesses: two alive tasks, task 0
current. -/
def sampleTasks : Nat → TaskRec := fun j =>
  if j = 0 then { is_alive := true, wake_time := 0, waiting_for := -1 }
  else if j = 1 then { is_alive := true, wake_time := 0, waiting_for := -1 }
  else zeroRec

/-- A concrete scheduler state with `num_tasks = 2`, both slots alive. -/
def sampleState : SchedState :=
  { current_task := 0, num_tasks := 2, num_alive := 2, tasks := sampleTasks }

theorem sampleState_dead (j : Nat) (hj : sampleState.num_tasks ≤ j) :
    (sampleState.tasks j).is_alive = false := by
  have h0 : j ≠ 0 := by
    simp only [sampleState] at hj
    omega
  have h1 : j ≠ 1 := by
    simp only [sampleState] at hj
    omega
  simp [sampleState, sampleTasks, zeroRec, h0, h1]

theorem schedule_next_round_robin_witness :
    sampleState.current_task < sampleState.num_tasks ∧
    ((schedule_next sampleState 0).map (fun r => r.2.2) = roundRobinFirst sampleState 0 ∧
     ∀ s' old res, schedule_next sampleState 0 = some (s', old, res) →
       roundRobinFirst sampleState 0 = some res ∧
       is_ready sampleState.tasks 0 (sampleState.tasks res) = true ∧
       (s'.tasks res).waiting_for = -1 ∧
       s'.current_task = res ∧
       old = sampleState.current_task ∧
       (∀ j, j ≠ res → s'.tasks j = sampleState.tasks j) ∧
       (s'.tasks res).is_alive = (sampleState.tasks res).is_alive ∧
       (s'.tasks res).wake_time = (sampleState.tasks res).wake_time ∧
       s'.num_tasks = sampleState.num_tasks ∧ s'.num_alive = sampleState.num_alive) :=
  ⟨by decide, schedule_next_round_robin sampleState 0 (by decide) sampleState_dead⟩

/-- Internal form of C2's readiness characterisation, for use by the other
proofs. -/
theorem is_ready_eq (tasks : Nat → TaskRec) (now : Nat) (task : TaskRec) :
    is_ready tasks now task = true ↔
      task.is_alive = true ∧
      (task.waiting_for = -1 ∨ (tasks task.waiting_for.toNat).is_alive = false) ∧
      task.wake_time ≤ now := by
  simp [is_ready, Bool.and_eq_true, Bool.or_eq_true, Bool.not_eq_true', and_assoc]

/-- One step of the scheduler system on configurations (state, clock
reading), parametrised by a guard on the states in which `task_create` may
run: `fun _ => True` is exactly the C code (which has no capacity check),
`fun s => s.num_tasks < MAX_TASKS` restricts creation to a non-full table.
`tick` is the external monotone clock advancing; the three update steps are
the table writes performed by `task_wait`, `task_sleep` and `task_exit`
before they call `schedule_next`; `sched` is one completed `schedule_next`
scan (invoked internally, or by `task_wait` / `task_sleep` / `task_exit` /
`task_readchar` after their writes). -/
inductive StepP (guard : SchedState → Prop) :
    SchedState × Nat → SchedState × Nat → Prop
  | tick (s : SchedState) (t u : Nat) (h : t ≤ u) : StepP guard (s, t) (s, u)
  | create (s : SchedState) (t : Nat) (h : guard s) :
      StepP guard (s, t) ((task_create s).1, t)
  | wait_upd (s : SchedState) (t : Nat) (handle : Int) (h : 0 ≤ handle) :
      StepP guard (s, t) (task_wait_upd s handle, t)
  | sleep_upd (s : SchedState) (t ms : Nat) :
      StepP guard (s, t) (task_sleep_upd s t ms, t)
  | exit_upd (s : SchedState) (t : Nat) :
      StepP guard (s, t) (task_exit_upd s, t)
  | sched (s : SchedState) (t : Nat) (s' : SchedState) (old res : Nat)
      (h : schedule_next s t = some (s', old, res)) :
      StepP guard (s, t) (s', t)

/-- States reachable from a completed `scheduler_init` under the code
exactly as written (no capacity guard on `task_create`). -/
def Reachable : SchedState × Nat → Prop :=
  Relation.ReflTransGen (StepP fun _ => True) (scheduler_init initialGlobals, 0)

/-- States reachable from a completed `scheduler_init` when `task_create`
is only invoked while the table still has a free slot. -/
def ReachableG : SchedState × Nat → Prop :=
  Relation.ReflTransGen (StepP fun s => s.num_tasks < MAX_TASKS)
    (scheduler_init initialGlobals, 0)

/-- The structural invariant: `current_task` indexes a claimed slot and
every unclaimed slot still holds its static zero record. -/
def SchedInv (s : SchedState) : Prop :=
  s.current_task < s.num_tasks ∧ ∀ j, s.num_tasks ≤ j → s.tasks j = zeroRec

theorem findReady_lt_num_tasks (s : SchedState) (now res : Nat)
    (hdead : ∀ j, s.num_tasks ≤ j → (s.tasks j).is_alive = false)
    (h : findReady s now = some res) : res < s.num_tasks := by
  by_contra hge
  have hready := findReady_some_ready s now res h
  have halive := ((is_ready_eq s.tasks now (s.tasks res)).mp hready).1
  rw [hdead res (by omega)] at halive
  exact Bool.false_ne_true halive

theorem step_clock_mono (guard : SchedState → Prop) (a b : SchedState × Nat)
    (h : StepP guard a b) : a.2 ≤ b.2 := by
  cases h with
  | tick s t u h => exact h
  | create s t h => exact Nat.le_refl t
  | wait_upd s t handle h => exact Nat.le_refl t
  | sleep_upd s t ms => exact Nat.le_refl t
  | exit_upd s t => exact Nat.le_refl t
  | sched s t s' old res h => exact Nat.le_refl t

theorem steps_clock_mono (guard : SchedState → Prop) (a b : SchedState × Nat)
    (h : Relation.ReflTransGen (StepP guard) a b) : a.2 ≤ b.2 := by
  induction h with
  | refl => exact Nat.le_refl _
  | tail _ hstep ih => exact Nat.le_trans ih (step_clock_mono _ _ _ hstep)

theorem step_preserves_schedInv (guard : SchedState → Prop) (a b : SchedState × Nat)
    (h : StepP guard a b) (hinv : SchedInv a.1) : SchedInv b.1 := by
  obtain ⟨hc, hz⟩ := hinv
  cases h with
  | tick s t u h => exact ⟨hc, hz⟩
  | create s t h =>
    have hc' : s.current_task < s.num_tasks := hc
    have hz' : ∀ j, s.num_tasks ≤ j → s.tasks j = zeroRec := hz
    refine ⟨by simpa [task_create] using Nat.lt_succ_of_lt hc', ?_⟩
    intro j hj
    simp only [task_create] at hj ⊢
    rw [if_neg (by omega)]
    exact hz' j (by omega)
  | wait_upd s t handle h =>
    have hc' : s.current_task < s.num_tasks := hc
    have hz' : ∀ j, s.num_tasks ≤ j → s.tasks j = zeroRec := hz
    refine ⟨hc', ?_⟩
    intro j hj
    simp only [task_wait_upd] at hj ⊢
    rw [if_neg (by omega)]
    exact hz' j hj
  | sleep_upd s t ms =>
    have hc' : s.current_task < s.num_tasks := hc
    have hz' : ∀ j, s.num_tasks ≤ j → s.tasks j = zeroRec := hz
    refine ⟨hc', ?_⟩
    intro j hj
    simp only [task_sleep_upd] at hj ⊢
    rw [if_neg (by omega)]
    exact hz' j hj
  | exit_upd s t =>
    have hc' : s.current_task < s.num_tasks := hc
    have hz' : ∀ j, s.num_tasks ≤ j → s.tasks j = zeroRec := hz
    refine ⟨hc', ?_⟩
    intro j hj
    simp only [task_exit_upd] at hj ⊢
    rw [if_neg (by omega)]
    exact hz' j hj
  | sched s t s' old res h =>
    have hz' : ∀ j, s.num_tasks ≤ j → s.tasks j = zeroRec := hz
    obtain ⟨hf, hold, hs⟩ := schedule_next_dest s t s' old res h
    have hres : res < s.num_tasks :=
      findReady_lt_num_tasks s t res (fun j hj => by rw [hz' j hj]; rfl) hf
    subst hs
    refine ⟨hres, ?_⟩
    intro j hj
    simp only at hj ⊢
    rw [if_neg (by omega)]
    exact hz' j hj

theorem reachableG_inv (c : SchedState × Nat) (h : ReachableG c) :
    SchedInv c.1 ∧ c.1.num_tasks ≤ MAX_TASKS := by
  induction h with
  | refl =>
    refine ⟨⟨Nat.zero_lt_one, ?_⟩, by decide⟩
    intro j hj
    simp only [scheduler_init, initialGlobals] at hj ⊢
    rw [if_neg (by omega)]
  | tail hsteps hstep ih =>
    refine ⟨step_preserves_schedInv _ _ _ hstep ih.1, ?_⟩
    cases hstep with
    | tick s t u h => exact ih.2
    | create s t h => simpa [task_create] using h
    | wait_upd s t handle h => exact ih.2
    | sleep_upd s t ms => exact ih.2
    | exit_upd s t => exact ih.2
    | sched s t s' old res h =>
      obtain ⟨hf, hold, hs⟩ := schedule_next_dest s t s' old res h
      subst hs
      exact ih.2

/-- C3 (amended): in every state reachable from `scheduler_init` by the
public operations and internal steps, provided each `task_create` call
happens while the table still has a free slot (`num_tasks < MAX_TASKS`),
the invariant `current_task < num_tasks ≤ MAX_TASKS` holds
(`0 ≤ current_task` is inherent in the `Nat` model of the index, which the
code never makes negative).  Without that proviso the invariant fails: see
the counterexample theorem. -/
theorem reachable_bounds (c : SchedState × Nat) (h : ReachableG c) :
    c.1.current_task < c.1.num_tasks ∧ c.1.num_tasks ≤ MAX_TASKS := by
  obtain ⟨⟨hc, _⟩, hm⟩ := reachableG_inv c h
  exact ⟨hc, hm⟩

theorem reachable_bounds_witness :
    (scheduler_init initialGlobals, 0).1.current_task <
      (scheduler_init initialGlobals, 0).1.num_tasks ∧
    (scheduler_init initialGlobals, 0).1.num_tasks ≤ MAX_TASKS :=
  reachable_bounds (scheduler_init initialGlobals, 0) Relation.ReflTransGen.refl

/-- `k` successive `task_create` calls. -/
def createN : Nat → SchedState → SchedState
  | 0, s => s
  | k + 1, s => (task_create (createN k s)).1

theorem createN_num_tasks (k : Nat) (s : SchedState) :
    (createN k s).num_tasks = s.num_tasks + k := by
  induction k with
  | zero => rfl
  | succ k ih =>
    show (createN k s).num_tasks + 1 = s.num_tasks + (k + 1)
    omega

theorem reachable_createN (k : Nat) :
    Reachable (createN k (scheduler_init initialGlobals), 0) := by
  induction k with
  | zero => exact Relation.ReflTransGen.refl
  | succ k ih =>
    exact Relation.ReflTransGen.tail ih
      (StepP.create (createN k (scheduler_init initialGlobals)) 0 trivial)

/-- C3 counterexample: the code has no capacity check, so the state after
128 `task_create` calls is reachable by a sequence of public operations and
has `num_tasks = 129 > MAX_TASKS`, falsifying the claimed invariant
`num_tasks ≤ MAX_TASKS`. -/
theorem reachable_bounds_counterexample :
    Reachable (createN 128 (scheduler_init initialGlobals), 0) ∧
    (createN 128 (scheduler_init initialGlobals)).num_tasks = 129 ∧
    ¬ ((createN 128 (scheduler_init initialGlobals)).num_tasks ≤ MAX_TASKS) := by
  have hn : (createN 128 (scheduler_init initialGlobals)).num_tasks = 129 := by
    rw [createN_num_tasks]
    decide
  refine ⟨reachable_createN 128, hn, ?_⟩
  rw [hn]
  decide

/-- C10: in every reachable state (with creation kept within the table
bound, as the claim's "while num_tasks ≤ MAX_TASKS" scopes it), every slot
with index ≥ `num_tasks` still has `is_alive = 0` from static
zero-initialisation; consequently `schedule_next`'s initial probe at the
unreduced index `current_task + 1` — which equals `num_tasks` when the
current task occupies the last claimed slot — can never be selected, and
the scan's outcome coincides with the modulo-based round-robin description
`roundRobinFirst` at every clock value. -/
theorem unborn_slots_dead_scan_agrees (c : SchedState × Nat) (h : ReachableG c) :
    (∀ j, c.1.num_tasks ≤ j → (c.1.tasks j).is_alive = false) ∧
    ∀ now, findReady c.1 now = roundRobinFirst c.1 now := by
  obtain ⟨⟨hc, hz⟩, _⟩ := reachableG_inv c h
  have hdead : ∀ j, c.1.num_tasks ≤ j → (c.1.tasks j).is_alive = false := by
    intro j hj
    rw [hz j hj]
    rfl
  exact ⟨hdead, fun now => findReady_eq_roundRobinFirst c.1 now hc hdead⟩

theorem unborn_slots_dead_scan_agrees_witness :
    (∀ j, (scheduler_init initialGlobals, 0).1.num_tasks ≤ j →
      ((scheduler_init initialGlobals, 0).1.tasks j).is_alive = false) ∧
    ∀ now, findReady (scheduler_init initialGlobals, 0).1 now =
      roundRobinFirst (scheduler_init initialGlobals, 0).1 now :=
  unborn_slots_dead_scan_agrees (scheduler_init initialGlobals, 0)
    Relation.ReflTransGen.refl

/-- C4 (the code lacks the specified behaviour): in the state reached by
127 `task_create` calls after `scheduler_init` the table is full
(`num_tasks = MAX_TASKS`), yet a further `task_create` performs no
capacity check and reports no error: it claims index `MAX_TASKS` — one
past the last slot `MAX_TASKS - 1` of the fixed table `tasks[MAX_TASKS]`,
i.e. an out-of-bounds write in C — and pushes `num_tasks` to
`MAX_TASKS + 1`. -/
theorem task_create_no_capacity_check :
    (createN 127 (scheduler_init initialGlobals)).num_tasks = MAX_TASKS ∧
    (task_create (createN 127 (scheduler_init initialGlobals))).2 = MAX_TASKS ∧
    (task_create (createN 127 (scheduler_init initialGlobals))).1.num_tasks =
      MAX_TASKS + 1 := by
  have hn : (createN 127 (scheduler_init initialGlobals)).num_tasks = 128 := by
    rw [createN_num_tasks]
    decide
  refine ⟨hn, hn, ?_⟩
  rw [show (task_create (createN 127 (scheduler_init
    initialGlobals))).1.num_tasks = (createN 127 (scheduler_init
    initialGlobals)).num_tasks + 1 from rfl, hn]
  decide


/-- C5: `task_create` in a state with `num_tasks = n < MAX_TASKS` (and the
unclaimed slots still zeroed, as in every reachable state) claims exactly
slot `n`, writes handle `n` to the caller, marks the slot alive with
`waiting_for = -1`, leaves `current_task` (hence the running task: the call
contains no context switch) and all previously claimed slots unchanged,
increments `num_tasks` — indices are claimed monotonically and never
reused — and the new record satisfies `is_ready` at every clock value. -/
theorem task_create_spec (s : SchedState)
    (_hlt : s.num_tasks < MAX_TASKS)
    (hfresh : ∀ j, s.num_tasks ≤ j → s.tasks j = zeroRec) :
    (task_create s).2 = s.num_tasks ∧
    (task_create s).1.num_tasks = s.num_tasks + 1 ∧
    ((task_create s).1.tasks s.num_tasks).is_alive = true ∧
    ((task_create s).1.tasks s.num_tasks).waiting_for = -1 ∧
    (task_create s).1.current_task = s.current_task ∧
    (∀ j, j < s.num_tasks → (task_create s).1.tasks j = s.tasks j) ∧
    ∀ now, is_ready (task_create s).1.tasks now
      ((task_create s).1.tasks s.num_tasks) = true := by
  have hwake : (s.tasks s.num_tasks).wake_time = 0 := by
    rw [hfresh s.num_tasks (Nat.le_refl _)]
    rfl
  refine ⟨rfl, rfl, by simp [task_create], by simp [task_create], rfl, ?_, ?_⟩
  · intro j hj
    simp only [task_create]
    rw [if_neg (by omega)]
  · intro now
    rw [is_ready_eq]
    refine ⟨by simp [task_create], Or.inl (by simp [task_create]), ?_⟩
    simp [task_create, hwake]

theorem task_create_spec_witness :
    sampleState.num_tasks < MAX_TASKS ∧
    ((task_create sampleState).2 = sampleState.num_tasks ∧
     (task_create sampleState).1.num_tasks = sampleState.num_tasks + 1 ∧
     ((task_create sampleState).1.tasks sampleState.num_tasks).is_alive = true ∧
     ((task_create sampleState).1.tasks sampleState.num_tasks).waiting_for = -1 ∧
     (task_create sampleState).1.current_task = sampleState.current_task ∧
     (∀ j, j < sampleState.num_tasks →
       (task_create sampleState).1.tasks j = sampleState.tasks j) ∧
     ∀ now, is_ready (task_create sampleState).1.tasks now
       ((task_create sampleState).1.tasks sampleState.num_tasks) = true) :=
  ⟨by decide, task_create_spec sampleState (by decide) (fun j hj => by
    have h0 : j ≠ 0 := by
      simp only [sampleState] at hj
      omega
    have h1 : j ≠ 1 := by
      simp only [sampleState] at hj
      omega
    simp [sampleState, sampleTasks, h0, h1])⟩

/-- C7: a task calling `task_wait(handle)` where `handle`'s slot is already
dead, or `handle` is not the slot of any created task, satisfies `is_ready`
at the very next readiness evaluation instead of deadlocking: the Readiness
Evaluator treats a dead wait target as a satisfied wait condition.  The
hypotheses `halive` and `hwake` say the caller is a running task (alive and
past its wake time — every task selected by `schedule_next` is, and the
monotone clock keeps it so); `hfresh` is the reachable-state fact that
unclaimed slots are dead, which turns an out-of-range handle into a dead
one; `hpos` limits the statement to actual handle values (nonnegative, as
produced by `task_create`). -/
theorem task_wait_dead_handle_ready (s : SchedState) (now : Nat) (handle : Int)
    (_hpos : 0 ≤ handle)
    (halive : (s.tasks s.current_task).is_alive = true)
    (hwake : (s.tasks s.current_task).wake_time ≤ now)
    (hdead : (s.tasks handle.toNat).is_alive = false ∨ s.num_tasks ≤ handle.toNat)
    (hfresh : ∀ j, s.num_tasks ≤ j → (s.tasks j).is_alive = false) :
    is_ready (task_wait_upd s handle).tasks now
      ((task_wait_upd s handle).tasks s.current_task) = true := by
  have hdead' : (s.tasks handle.toNat).is_alive = false :=
    hdead.elim id fun h => hfresh handle.toNat h
  have hne : handle.toNat ≠ s.current_task := by
    intro e
    rw [e, halive] at hdead'
    exact Bool.noConfusion hdead'
  have hcur : (task_wait_upd s handle).tasks s.current_task =
      { s.tasks s.current_task with waiting_for := handle } := by
    simp [task_wait_upd]
  have htgt : (task_wait_upd s handle).tasks handle.toNat = s.tasks handle.toNat := by
    simp [task_wait_upd, hne]
  rw [is_ready_eq]
  refine ⟨?_, ?_, ?_⟩
  · rw [hcur]
    exact halive
  · right
    rw [hcur]
    show ((task_wait_upd s handle).tasks handle.toNat).is_alive = false
    rw [htgt]
    exact hdead'
  · rw [hcur]
    exact hwake

theorem task_wait_dead_handle_ready_witness :
    (0 : Int) ≤ 5 ∧
    (sampleState.tasks sampleState.current_task).is_alive = true ∧
    (sampleState.tasks sampleState.current_task).wake_time ≤ 0 ∧
    ((sampleState.tasks (Int.toNat 5)).is_alive = false ∨
      sampleState.num_tasks ≤ Int.toNat 5) ∧
    is_ready (task_wait_upd sampleState 5).tasks 0
      ((task_wait_upd sampleState 5).tasks sampleState.current_task) = true :=
  ⟨by decide, by decide, by decide, Or.inr (by decide),
   task_wait_dead_handle_ready sampleState 0 5 (by decide) (by decide)
     (by decide) (Or.inr (by decide)) sampleState_dead⟩

/-- C9: one iteration of `task_readchar`'s poll loop.  A poll returning the
no-data sentinel `ERR` yields through `schedule_next` and performs no other
state change: in particular the caller's `wake_time` and `waiting_for` are
the same after the yield (its `waiting_for` is `-1` while it runs, and the
selecting `schedule_next` only ever writes `-1` there), so it satisfies the
same readiness conditions the next time it is considered.  The first poll
returning data makes `task_readchar` return exactly that character, with
the scheduler state untouched. -/
theorem task_readchar_spec (s : SchedState) (now : Nat) (input : Int)
    (rest : List Int)
    (hwf : (s.tasks s.current_task).waiting_for = -1) :
    (input ≠ ERR → task_readchar s now (input :: rest) = some (input, s)) ∧
    (input = ERR → ∀ s2 old res, schedule_next s now = some (s2, old, res) →
      task_readchar s now (input :: rest) = task_readchar s2 now rest ∧
      (s2.tasks s.current_task).wake_time = (s.tasks s.current_task).wake_time ∧
      (s2.tasks s.current_task).waiting_for = -1) := by
  constructor
  · intro hne
    simp only [task_readchar]
    rw [if_neg hne]
  · intro he s2 old res hsched
    subst he
    obtain ⟨hf, hold, hs⟩ := schedule_next_dest s now s2 old res hsched
    subst hs
    refine ⟨?_, ?_, ?_⟩
    · simp [task_readchar, hsched]
    · by_cases hcr : s.current_task = res
      · simp [hcr]
      · simp [hcr]
    · by_cases hcr : s.current_task = res
      · simp [hcr]
      · simp [hcr, hwf]

theorem task_readchar_spec_witness :
    (sampleState.tasks sampleState.current_task).waiting_for = -1 ∧
    (((65 : Int) ≠ ERR →
       task_readchar sampleState 0 (65 :: []) = some (65, sampleState)) ∧
     ((65 : Int) = ERR → ∀ s2 old res,
       schedule_next sampleState 0 = some (s2, old, res) →
       task_readchar sampleState 0 (65 :: []) = task_readchar s2 0 [] ∧
       (s2.tasks sampleState.current_task).wake_time =
         (sampleState.tasks sampleState.current_task).wake_time ∧
       (s2.tasks sampleState.current_task).waiting_for = -1)) :=
  ⟨by decide, task_readchar_spec sampleState 0 65 [] (by decide)⟩

theorem schedule_next_wake_le (s : SchedState) (t : Nat) (s' : SchedState)
    (old res : Nat) (h : schedule_next s t = some (s', old, res)) :
    (s.tasks res).wake_time ≤ t := by
  obtain ⟨hf, _, _⟩ := schedule_next_dest s t s' old res h
  exact ((is_ready_eq s.tasks t (s.tasks res)).mp
    (findReady_some_ready s t res hf)).2.2

/-- The configuration property "task `j`, whose wake time is `w`, has not
been resumed": it is not current, its wake time is untouched, and its slot
stays claimed. -/
def NotYetResumed (j w : Nat) (c : SchedState × Nat) : Prop :=
  c.1.current_task ≠ j ∧ (c.1.tasks j).wake_time = w ∧ j < c.1.num_tasks

theorem step_not_resumed (guard : SchedState → Prop) (j w : Nat)
    (a b : SchedState × Nat) (h : StepP guard a b)
    (hG : NotYetResumed j w a ∨ w ≤ a.2) :
    NotYetResumed j w b ∨ w ≤ b.2 := by
  rcases hG with ⟨hcur, hwk, hlt⟩ | hle
  · cases h with
    | tick s t u h =>
      exact Or.inl ⟨hcur, hwk, hlt⟩
    | create s t h =>
      have hwk' : (s.tasks j).wake_time = w := hwk
      have hlt' : j < s.num_tasks := hlt
      left
      refine ⟨hcur, ?_, ?_⟩
      · show ((task_create s).1.tasks j).wake_time = w
        simp only [task_create]
        rw [if_neg (by omega)]
        exact hwk'
      · show j < (task_create s).1.num_tasks
        simp only [task_create]
        omega
    | wait_upd s t handle h =>
      have hcur' : s.current_task ≠ j := hcur
      have hwk' : (s.tasks j).wake_time = w := hwk
      left
      refine ⟨hcur, ?_, hlt⟩
      show ((task_wait_upd s handle).tasks j).wake_time = w
      simp only [task_wait_upd]
      rw [if_neg fun e => hcur' e.symm]
      exact hwk'
    | sleep_upd s t ms =>
      have hcur' : s.current_task ≠ j := hcur
      have hwk' : (s.tasks j).wake_time = w := hwk
      left
      refine ⟨hcur, ?_, hlt⟩
      show ((task_sleep_upd s t ms).tasks j).wake_time = w
      simp only [task_sleep_upd]
      rw [if_neg fun e => hcur' e.symm]
      exact hwk'
    | exit_upd s t =>
      have hcur' : s.current_task ≠ j := hcur
      have hwk' : (s.tasks j).wake_time = w := hwk
      left
      refine ⟨hcur, ?_, hlt⟩
      show ((task_exit_upd s).tasks j).wake_time = w
      simp only [task_exit_upd]
      rw [if_neg fun e => hcur' e.symm]
      exact hwk'
    | sched s t s' old res h =>
      have hwk' : (s.tasks j).wake_time = w := hwk
      have hlt' : j < s.num_tasks := hlt
      obtain ⟨hf, hold, hs⟩ := schedule_next_dest s t s' old res h
      by_cases hres : res = j
      · right
        subst hres
        have hle := schedule_next_wake_le s t s' old res h
        show w ≤ t
        omega
      · left
        subst hs
        refine ⟨hres, ?_, hlt'⟩
        show (if j = res then { s.tasks res with waiting_for := -1 }
          else s.tasks j).wake_time = w
        rw [if_neg fun e => hres e.symm]
        exact hwk'
  · exact Or.inr (Nat.le_trans hle (step_clock_mono guard a b h))

theorem steps_not_resumed (guard : SchedState → Prop) (j w : Nat)
    (a b : SchedState × Nat)
    (hsteps : Relation.ReflTransGen (StepP guard) a b)
    (ha : NotYetResumed j w a) :
    NotYetResumed j w b ∨ w ≤ b.2 := by
  induction hsteps with
  | refl => exact Or.inl ha
  | tail hs hstep ih => exact step_not_resumed guard j w _ _ hstep ih

theorem circular_hit_current (n c d : Nat) (hc : c < n) (hd : d < n) :
    (c + 1 + d) % n = c ↔ d = n - 1 := by
  constructor
  · intro h
    have hdm := Nat.div_add_mod (c + 1 + d) n
    rw [h] at hdm
    rcases hq : (c + 1 + d) / n with _ | q
    · rw [hq] at hdm
      simp only [Nat.mul_zero] at hdm
      omega
    · rw [hq] at hdm
      have hnq : n * (q + 1) = d + 1 := by omega
      have hge : n ≤ n * (q + 1) := Nat.le_mul_of_pos_right n (Nat.succ_pos q)
      rw [hnq] at hge
      omega
  · intro h
    subst h
    rw [show c + 1 + (n - 1) = c + n by omega, Nat.add_mod_right,
        Nat.mod_eq_of_lt hc]

theorem circular_covers_ne (n c k : Nat) (hc : c < n) (hk : k < n)
    (hkc : k ≠ c) : ∃ d, d < n - 1 ∧ (c + 1 + d) % n = k := by
  by_cases hge : c + 1 ≤ k
  · refine ⟨k - (c + 1), by omega, ?_⟩
    rw [show c + 1 + (k - (c + 1)) = k by omega, Nat.mod_eq_of_lt hk]
  · refine ⟨k + n - (c + 1), by omega, ?_⟩
    rw [show c + 1 + (k + n - (c + 1)) = k + n by omega, Nat.add_mod_right,
        Nat.mod_eq_of_lt hk]

/-- In the round-robin enumeration starting just after `current_task`, the
slot of `current_task` itself comes last, so whenever some other claimed
slot is ready the selection is not the current task. -/
theorem roundRobinFirst_prefers_others (s : SchedState) (now : Nat)
    (hc : s.current_task < s.num_tasks) (k : Nat) (hk : k < s.num_tasks)
    (hkc : k ≠ s.current_task)
    (hkready : is_ready s.tasks now (s.tasks k) = true) :
    ∀ res, roundRobinFirst s now = some res → res ≠ s.current_task := by
  intro res hres hcontra
  subst hcontra
  have hsplit : List.range s.num_tasks =
      List.range (s.num_tasks - 1) ++ [s.num_tasks - 1] := by
    conv_lhs => rw [show s.num_tasks = s.num_tasks - 1 + 1 by omega]
    rw [List.range_succ]
  rw [roundRobinFirst, hsplit, List.map_append, List.find?_append] at hres
  cases hfa : ((List.range (s.num_tasks - 1)).map fun x =>
      (s.current_task + 1 + x) % s.num_tasks).find?
        (fun j => is_ready s.tasks now (s.tasks j)) with
  | none =>
    obtain ⟨d, hd, hfd⟩ := circular_covers_ne s.num_tasks s.current_task k hc hk hkc
    have hmem : k ∈ (List.range (s.num_tasks - 1)).map fun x =>
        (s.current_task + 1 + x) % s.num_tasks :=
      List.mem_map.mpr ⟨d, List.mem_range.mpr hd, hfd⟩
    exact absurd hkready (List.find?_eq_none.mp hfa k hmem)
  | some a =>
    rw [hfa] at hres
    have ha : a = s.current_task := by simpa using hres
    subst ha
    have hamem := List.mem_of_find?_eq_some hfa
    obtain ⟨d, hdmem, hfd⟩ := List.mem_map.mp hamem
    have hd : d < s.num_tasks - 1 := List.mem_range.mp hdmem
    have := (circular_hit_current s.num_tasks s.current_task d hc (by omega)).mp hfd
    omega

/-- C8: `task_sleep(ms)` called at clock `t0` (i) sets the calling task's
`wake_time` to `t0 + ms`; (ii) then unconditionally — for `ms = 0` as well —
invokes the Scheduler Loop (the call is exactly a `schedule_next` after the
`wake_time` write); (iii) that scan puts the caller last in round-robin
order, so even with `ms = 0` any other ready task is selected instead of
the caller — control is relinquished; (iv) the sleeping task never resumes
before clock `t0 + ms`: in every configuration reachable from the
post-switch state by scheduler steps in which the sleeper is current again,
the clock reads at least `t0 + ms`. -/
theorem task_sleep_spec (s : SchedState) (t0 ms : Nat)
    (hc : s.current_task < s.num_tasks)
    (hdead : ∀ j, s.num_tasks ≤ j → (s.tasks j).is_alive = false) :
    ((task_sleep_upd s t0 ms).tasks s.current_task).wake_time = t0 + ms ∧
    task_sleep s t0 ms = schedule_next (task_sleep_upd s t0 ms) t0 ∧
    (∀ k, k < s.num_tasks → k ≠ s.current_task →
      is_ready (task_sleep_upd s t0 ms).tasks t0
        ((task_sleep_upd s t0 ms).tasks k) = true →
      ∀ s2 old res, task_sleep s t0 ms = some (s2, old, res) →
        res ≠ s.current_task) ∧
    ∀ (guard : SchedState → Prop) (s2 : SchedState) (old res : Nat),
      task_sleep s t0 ms = some (s2, old, res) →
      ∀ b, Relation.ReflTransGen (StepP guard) (s2, t0) b →
        b.1.current_task = s.current_task → t0 + ms ≤ b.2 := by
  have hupdcur : (task_sleep_upd s t0 ms).tasks s.current_task =
      { s.tasks s.current_task with wake_time := t0 + ms } := by
    simp [task_sleep_upd]
  have hc2 : (task_sleep_upd s t0 ms).current_task <
      (task_sleep_upd s t0 ms).num_tasks := hc
  have hdead2 : ∀ j, (task_sleep_upd s t0 ms).num_tasks ≤ j →
      ((task_sleep_upd s t0 ms).tasks j).is_alive = false := by
    intro j hj
    have hj' : s.num_tasks ≤ j := hj
    have hne : j ≠ s.current_task := by omega
    have hkeep : (task_sleep_upd s t0 ms).tasks j = s.tasks j := by
      simp [task_sleep_upd, hne]
    rw [hkeep]
    exact hdead j hj'
  refine ⟨by rw [hupdcur], rfl, ?_, ?_⟩
  · intro k hk hkc hkready s2 old res hsl
    obtain ⟨hf, hold, hs⟩ :=
      schedule_next_dest (task_sleep_upd s t0 ms) t0 s2 old res hsl
    have hrr : roundRobinFirst (task_sleep_upd s t0 ms) t0 = some res := by
      rw [← findReady_eq_roundRobinFirst (task_sleep_upd s t0 ms) t0 hc2 hdead2]
      exact hf
    exact roundRobinFirst_prefers_others (task_sleep_upd s t0 ms) t0 hc2
      k hk hkc hkready res hrr
  · intro guard s2 old res hsl b hsteps hb
    obtain ⟨hf, hold, hs⟩ :=
      schedule_next_dest (task_sleep_upd s t0 ms) t0 s2 old res hsl
    by_cases hres : res = s.current_task
    · subst hres
      have hwle := schedule_next_wake_le (task_sleep_upd s t0 ms) t0 s2 old _ hsl
      rw [hupdcur] at hwle
      have hwle' : t0 + ms ≤ t0 := hwle
      have hclock : t0 ≤ b.2 := steps_clock_mono guard (s2, t0) b hsteps
      omega
    · have hnr : NotYetResumed s.current_task (t0 + ms) (s2, t0) := by
        subst hs
        refine ⟨?_, ?_, ?_⟩
        · show res ≠ s.current_task
          exact hres
        · show (if s.current_task = res then
              { (task_sleep_upd s t0 ms).tasks res with waiting_for := -1 }
            else (task_sleep_upd s t0 ms).tasks s.current_task).wake_time =
              t0 + ms
          rw [if_neg fun e => hres e.symm, hupdcur]
        · show s.current_task < s.num_tasks
          exact hc
      rcases steps_not_resumed guard s.current_task (t0 + ms) (s2, t0) b
        hsteps hnr with hnot | hle
      · exact absurd hb hnot.1
      · exact hle

theorem task_sleep_spec_witness :
    sampleState.current_task < sampleState.num_tasks ∧
    (((task_sleep_upd sampleState 0 7).tasks sampleState.current_task).wake_time =
        0 + 7 ∧
     task_sleep sampleState 0 7 = schedule_next (task_sleep_upd sampleState 0 7) 0 ∧
     (∀ k, k < sampleState.num_tasks → k ≠ sampleState.current_task →
       is_ready (task_sleep_upd sampleState 0 7).tasks 0
         ((task_sleep_upd sampleState 0 7).tasks k) = true →
       ∀ s2 old res, task_sleep sampleState 0 7 = some (s2, old, res) →
         res ≠ sampleState.current_task) ∧
     ∀ (guard : SchedState → Prop) (s2 : SchedState) (old res : Nat),
       task_sleep sampleState 0 7 = some (s2, old, res) →
       ∀ b, Relation.ReflTransGen (StepP guard) (s2, 0) b →
         b.1.current_task = sampleState.current_task → 0 + 7 ≤ b.2) :=
  ⟨by decide, task_sleep_spec sampleState 0 7 (by decide) sampleState_dead⟩
